import Mathlib

/-!
Shallow embedding of `src/app/connector/github/ExponentialBackoff.ts`:
the `ExponentialBackoff` retry policy and the `GitHubIssueSyncManager`
incremental sync engine.

Modelling conventions:
* Timestamps are integers (epoch milliseconds).  The source compares
  ISO-8601 strings via `new Date(a) > new Date(b)`, which compares the
  underlying time values, so the embedding stores the time value
  directly; `new Date().toISOString()` ("now") is an explicit parameter.
* JavaScript numbers used as delays/factors are rationals; attempt
  counters, page numbers and list lengths are naturals; record ids are
  integers; `maxAttempts` is an integer (the spec speaks of negative
  values).
* `Math.random()` is an explicit parameter in `[0, 1)`.
* Database tables are lists of rows; `INSERT OR REPLACE` removes any row
  with the same primary key and appends the new row;
  `ON CONFLICT ... DO UPDATE SET c = v` updates only the column `c` of
  conflicting rows.  SQL statements of one transaction see the effects of
  the earlier statements of the same transaction, so a transaction body
  is sequential composition of its statements.
* The remote API is an explicit function argument; a thrown exception is
  an `Except.error` / a recorded `error` field.
-/

namespace ExponentialBackoff

/-- `Required<BackoffOptions>`: the options record after the constructor
has filled in the defaults. -/
structure BackoffOptions where
  initialDelay : ℚ
  maxDelay : ℚ
  maxAttempts : Int
  factor : ℚ
  jitter : Bool
deriving DecidableEq

/-- The `BackoffOptions` object passed to the constructor; optional
fields may be absent. -/
structure BackoffOptionsInput where
  initialDelay : ℚ
  maxDelay : Option ℚ := none
  maxAttempts : Option Int := none
  factor : Option ℚ := none
  jitter : Option Bool := none

/-- The constructor body: each absent field is replaced by its `??`
default (`maxDelay ?? 30000`, `maxAttempts ?? 5`, `factor ?? 2`,
`jitter ?? true`). -/
def mkBackoffOptions (o : BackoffOptionsInput) : BackoffOptions where
  initialDelay := o.initialDelay
  maxDelay := o.maxDelay.getD 30000
  maxAttempts := o.maxAttempts.getD 5
  factor := o.factor.getD 2
  jitter := o.jitter.getD true

/-- `calculateDelay()`: exponential delay capped by `maxDelay`, plus, when
jitter is on, `boundedDelay * 0.25 * Math.random()`.  The current value of
the private `currentAttempt` counter and the random draw are explicit
arguments. -/
def calculateDelay (o : BackoffOptions) (currentAttempt : Nat) (rand : ℚ) : ℚ :=
  let exponentialDelay := o.initialDelay * o.factor ^ currentAttempt
  let boundedDelay := min exponentialDelay o.maxDelay
  if !o.jitter then
    boundedDelay
  else
    let jitterAmount := boundedDelay * (1/4) * rand
    boundedDelay + jitterAmount

/-- The `while (true)` loop of `execute()` on an instance whose
`currentAttempt` counter currently holds the second `Nat` argument.
`op i` is the outcome of the invocation of `operation` performed while
`currentAttempt = i`.  `fuel` bounds how many invocations are modelled
(the source loop is unbounded): `none` means the loop is still running
after `fuel` invocations; otherwise the result is the propagated outcome
paired with the number of invocations of `op` that were made. -/
def executeAux {ε α : Type} (maxAttempts : Int) (op : Nat → Except ε α) :
    Nat → Nat → Option (Except ε α × Nat)
  | 0, _ => none
  | fuel + 1, currentAttempt =>
    match op currentAttempt with
    | .ok t => some (.ok t, 1)
    | .error e =>
      if 0 < maxAttempts ∧ maxAttempts - 1 ≤ (currentAttempt : Int) then
        some (.error e, 1)
      else
        (executeAux maxAttempts op fuel (currentAttempt + 1)).map fun r => (r.1, r.2 + 1)

/-- `execute()` on a fresh instance (`currentAttempt = 0`). -/
def execute {ε α : Type} (maxAttempts : Int) (op : Nat → Except ε α) (fuel : Nat) :
    Option (Except ε α × Nat) :=
  executeAux maxAttempts op fuel 0

end ExponentialBackoff

namespace GitHubIssueSyncManager

/-- A row of the `github_issues` table.  `labels` keeps the list of label
names (the source stores their JSON serialization). -/
structure IssueRow where
  id : Int
  number : Int
  is_pull_request : Bool
  title : String
  body : String
  state : String
  created_at : Int
  updated_at : Int
  closed_at : Option Int
  user_login : String
  labels : List String
  comment_count : Nat
  repository : String
deriving DecidableEq

/-- A row of the `github_comments` table. -/
structure CommentRow where
  id : Int
  issue_id : Int
  body : String
  user_login : String
  created_at : Int
  updated_at : Int
  repository : String
deriving DecidableEq

/-- A row of the `issue_sync_state` table (primary key `repository`). -/
structure IssueSyncStateRow where
  repository : String
  last_issue_sync : Int
deriving DecidableEq

/-- A row of the `comment_sync_state` table (primary key `issue_id`). -/
structure CommentSyncStateRow where
  issue_id : Int
  repository : String
  last_comment_sync : Int
deriving DecidableEq

/-- The four tables of `GithubIssuesSyncSchema`. -/
structure DB where
  github_issues : List IssueRow
  github_comments : List CommentRow
  issue_sync_state : List IssueSyncStateRow
  comment_sync_state : List CommentSyncStateRow
deriving DecidableEq

/-- The remote `Issue` payload (interface `Issue`): `pull_request` models
the truthiness of the `pull_request` field (`!!issue.pull_request`),
`user_login` flattens `user.login`, `labels` the label names, `comments`
is the remote comment count. -/
structure Issue where
  id : Int
  number : Int
  pull_request : Bool
  title : String
  body : String
  state : String
  created_at : Int
  updated_at : Int
  closed_at : Option Int
  user_login : String
  labels : List String
  comments : Nat
deriving DecidableEq

/-- The remote `IssueComment` payload (interface `IssueComment`). -/
structure IssueComment where
  id : Int
  issue_id : Int
  user_login : String
  body : String
  created_at : Int
  updated_at : Int
deriving DecidableEq

/-- `getLastIssueSyncState()`: first `issue_sync_state` row of the scope
(`${owner}/${repo}`), if any, projected to its `last_issue_sync` column
(the caller only uses `lastIssueSync?.last_issue_sync`). -/
def getLastIssueSyncState (scope : String) (db : DB) : Option Int :=
  match db.issue_sync_state.filter (fun s => s.repository = scope) with
  | [] => none
  | r :: _ => some r.last_issue_sync

/-- `getCommentSyncState(issueId)`: the `last_comment_sync` column of the
first `comment_sync_state` row with this `issue_id` and scope, if any. -/
def getCommentSyncState (issueId : Int) (scope : String) (db : DB) : Option Int :=
  match db.comment_sync_state.filter
      (fun s => s.issue_id = issueId ∧ s.repository = scope) with
  | [] => none
  | r :: _ => some r.last_comment_sync

/-- `updateIssueSyncState()`: upsert into `issue_sync_state` keyed by
`repository`; on conflict only `last_issue_sync` is updated. -/
def updateIssueSyncState (scope : String) (now : Int) (db : DB) : DB :=
  if db.issue_sync_state.any (fun s => s.repository = scope) then
    { db with issue_sync_state := db.issue_sync_state.map fun s =>
        if s.repository = scope then { s with last_issue_sync := now } else s }
  else
    { db with issue_sync_state := db.issue_sync_state ++ [⟨scope, now⟩] }

/-- `updateCommentSyncState(issueId)`: upsert into `comment_sync_state`
keyed by `issue_id` alone (`ON CONFLICT(issue_id)`); on conflict only
`last_comment_sync` is updated. -/
def updateCommentSyncState (issueId : Int) (scope : String) (now : Int) (db : DB) : DB :=
  if db.comment_sync_state.any (fun s => s.issue_id = issueId) then
    { db with comment_sync_state := db.comment_sync_state.map fun s =>
        if s.issue_id = issueId then { s with last_comment_sync := now } else s }
  else
    { db with comment_sync_state := db.comment_sync_state ++ [⟨issueId, scope, now⟩] }

/-- `INSERT OR REPLACE INTO github_issues`: conflict on the primary key
`id` replaces the row. -/
def insertOrReplaceIssue (r : IssueRow) (t : List IssueRow) : List IssueRow :=
  t.filter (fun x => ¬ x.id = r.id) ++ [r]

/-- The row written for an issue by `saveIssues`. -/
def issueToRow (i : Issue) (scope : String) : IssueRow where
  id := i.id
  number := i.number
  is_pull_request := i.pull_request
  title := i.title
  body := i.body
  state := i.state
  created_at := i.created_at
  updated_at := i.updated_at
  closed_at := i.closed_at
  user_login := i.user_login
  labels := i.labels
  comment_count := i.comments
  repository := scope

/-- `saveIssues(issues)`: one transaction upserting every issue by id. -/
def saveIssues (issues : List Issue) (scope : String) (db : DB) : DB :=
  { db with github_issues :=
      (issues.foldl (fun t i => insertOrReplaceIssue (issueToRow i scope) t)
        db.github_issues) }

/-- `INSERT OR REPLACE INTO github_comments`: conflict on the primary key
`id` replaces the row. -/
def insertOrReplaceComment (r : CommentRow) (t : List CommentRow) : List CommentRow :=
  t.filter (fun x => ¬ x.id = r.id) ++ [r]

/-- The row written for a comment by `saveComments`: `issue_id` and
`repository` come from the arguments, not from the payload. -/
def commentToRow (c : IssueComment) (issueId : Int) (scope : String) : CommentRow where
  id := c.id
  issue_id := issueId
  body := c.body
  user_login := c.user_login
  created_at := c.created_at
  updated_at := c.updated_at
  repository := scope

/-- `saveComments(comments, issueId)`: inside one transaction, if no
`comment_sync_state` row exists for the issue, delete all of the issue's
comment rows in this scope, then insert-or-replace every comment of the
batch. -/
def saveComments (comments : List IssueComment) (issueId : Int) (scope : String)
    (db : DB) : DB :=
  let lastSync := getCommentSyncState issueId scope db
  let cleared :=
    if lastSync.isNone then
      db.github_comments.filter
        (fun c => ¬ (c.issue_id = issueId ∧ c.repository = scope))
    else
      db.github_comments
  { db with github_comments :=
      (comments.foldl
        (fun t c => insertOrReplaceComment (commentToRow c issueId scope) t) cleared) }

/-- The staleness test of the sync cycle:
`!lastCommentSync || new Date(issue.updated_at) > new Date(lastCommentSync)`. -/
def needsCommentSync (updatedAt : Int) : Option Int → Bool
  | none => true
  | some t => decide (t < updatedAt)

/-- The outcome of one sync cycle.  `completed` lists (in order) the ids
of the fetched issues whose loop iteration ran to the end; `childFetched`
lists the ids of the issues for which `fetchCommentsForIssue` was
invoked; `error` records the exception caught by the cycle's
`try`/`catch`, if any (the source logs it and returns normally). -/
structure CycleResult (ε : Type) where
  db : DB
  commentsSynced : Nat
  completed : List Int
  childFetched : List Int
  error : Option ε
deriving DecidableEq

/-- The per-issue comment loop of `syncIssuesAndComments()`.  A thrown
exception (a failed comment fetch) stops the loop at the current issue;
the writes already committed stay, and the exception is recorded as the
cycle's `error`. -/
def syncCommentsLoop {ε : Type}
    (fetchComments : Int → Option Int → Except ε (List IssueComment))
    (scope : String) (now : Int) : List Issue → DB → Nat → CycleResult ε
  | [], db, commentsSynced =>
    { db := db, commentsSynced := commentsSynced, completed := [],
      childFetched := [], error := none }
  | issue :: rest, db, commentsSynced =>
    if 0 < issue.comments then
      let lastCommentSync := getCommentSyncState issue.id scope db
      if needsCommentSync issue.updated_at lastCommentSync then
        match fetchComments issue.number lastCommentSync with
        | .error e =>
          { db := db, commentsSynced := commentsSynced, completed := [],
            childFetched := [issue.id], error := some e }
        | .ok comments =>
          if 0 < comments.length then
            let db' := updateCommentSyncState issue.id scope now
              (saveComments comments issue.id scope db)
            let r := syncCommentsLoop fetchComments scope now rest db'
              (commentsSynced + comments.length)
            { r with completed := issue.id :: r.completed,
                     childFetched := issue.id :: r.childFetched }
          else
            let r := syncCommentsLoop fetchComments scope now rest db commentsSynced
            { r with completed := issue.id :: r.completed,
                     childFetched := issue.id :: r.childFetched }
      else
        let r := syncCommentsLoop fetchComments scope now rest db commentsSynced
        { r with completed := issue.id :: r.completed }
    else
      let r := syncCommentsLoop fetchComments scope now rest db commentsSynced
      { r with completed := issue.id :: r.completed }

/-- `syncIssuesAndComments()`: one sync cycle.  `fetchIssues` abstracts
`fetchAllIssues` (it receives the stored cursor), `fetchComments`
abstracts `fetchCommentsForIssue` (it receives `issue.number` and the
issue's comment cursor).  The surrounding `try`/`catch` is modelled by
the `error` field of the result: the cycle never propagates. -/
def syncIssuesAndComments {ε : Type}
    (fetchIssues : Option Int → Except ε (List Issue))
    (fetchComments : Int → Option Int → Except ε (List IssueComment))
    (scope : String) (now : Int) (db : DB) : CycleResult ε :=
  let lastIssueSync := getLastIssueSyncState scope db
  match fetchIssues lastIssueSync with
  | .error e =>
    { db := db, commentsSynced := 0, completed := [], childFetched := [],
      error := some e }
  | .ok issues =>
    let db1 :=
      if 0 < issues.length then
        updateIssueSyncState scope now (saveIssues issues scope db)
      else db
    syncCommentsLoop fetchComments scope now issues db1 0

/-- `cleanup()`: one transaction running the four `DELETE` statements in
source order.  The last statement's subquery
`SELECT id FROM github_issues WHERE repository = ?` runs after the
scope's issue rows have already been deleted by the second statement. -/
def cleanup (scope : String) (db : DB) : DB :=
  let db1 := { db with github_comments :=
      db.github_comments.filter (fun c => ¬ c.repository = scope) }
  let db2 := { db1 with github_issues :=
      db1.github_issues.filter (fun i => ¬ i.repository = scope) }
  let db3 := { db2 with issue_sync_state :=
      db2.issue_sync_state.filter (fun s => ¬ s.repository = scope) }
  let scopedIssueIds :=
    (db3.github_issues.filter (fun i => i.repository = scope)).map IssueRow.id
  { db3 with comment_sync_state :=
      db3.comment_sync_state.filter (fun s => ¬ s.issue_id ∈ scopedIssueIds) }

/-- The query parameters of one page request.  An absent key of the
`params` object is `none` (`githubFetch` skips `undefined` values). -/
structure GithubParams where
  state : Option String
  per_page : Nat
  page : Nat
  sort : Option String
  direction : Option String
  since : Option Int
deriving DecidableEq

/-- The parameters `fetchAllIssues` builds for one page: `state: "all"`,
`per_page: 100`, `sort: "updated"`, `direction: "desc"`, and `since`
exactly when a cursor was passed. -/
def issuePageParams (since : Option Int) (page : Nat) : GithubParams where
  state := some "all"
  per_page := 100
  page := page
  sort := some "updated"
  direction := some "desc"
  since := since

/-- The parameters `fetchCommentsForIssue` builds for one page:
`per_page: 100`, `page`, and `since` exactly when a cursor was passed —
no `state`, `sort` or `direction` keys. -/
def commentPageParams (since : Option Int) (page : Nat) : GithubParams where
  state := none
  per_page := 100
  page := page
  sort := none
  direction := none
  since := since

/-- The shared `while (true)` pagination loop: request the page, stop on
an empty page, otherwise append the records and continue with the next
page number.  `fuel` bounds the number of requests modelled (`none` =
still looping after `fuel` requests). -/
def fetchPagesLoop {α : Type} (remote : GithubParams → List α)
    (mk : Nat → GithubParams) : Nat → Nat → Option (List α)
  | 0, _ => none
  | fuel + 1, page =>
    let data := remote (mk page)
    if data.length = 0 then some []
    else (fetchPagesLoop remote mk fuel (page + 1)).map fun rest => data ++ rest

/-- `fetchAllIssues(since?)`: the pagination loop over the issue endpoint
starting at page 1. -/
def fetchAllIssues (remote : GithubParams → List Issue) (since : Option Int)
    (fuel : Nat) : Option (List Issue) :=
  fetchPagesLoop remote (issuePageParams since) fuel 1

/-- `fetchCommentsForIssue(issueNumber, since?)`: the pagination loop over
the issue's comment endpoint starting at page 1 (the issue number is part
of the endpoint, folded into `remote`). -/
def fetchCommentsForIssue (remote : GithubParams → List IssueComment)
    (since : Option Int) (fuel : Nat) : Option (List IssueComment) :=
  fetchPagesLoop remote (commentPageParams since) fuel 1

end GitHubIssueSyncManager

namespace ExponentialBackoff

theorem executeAux_allFail {ε α : Type} (k : Nat) (op : Nat → Except ε α)
    (err : Nat → ε) (hop : ∀ i, op i = Except.error (err i)) :
    ∀ fuel currentAttempt, currentAttempt < k → k - currentAttempt ≤ fuel →
      executeAux (k : Int) op fuel currentAttempt =
        some (Except.error (err (k - 1)), k - currentAttempt) := by
  intro fuel
  induction fuel with
  | zero => intro cur h1 h2; omega
  | succ fuel ih =>
    intro cur h1 h2
    simp only [executeAux, hop cur]
    by_cases hc : (0 : Int) < (k : Int) ∧ (k : Int) - 1 ≤ (cur : Int)
    · rw [if_pos hc]
      have hcur : cur = k - 1 := by omega
      subst hcur
      have hone : k - (k - 1) = 1 := by omega
      rw [hone]
    · rw [if_neg hc]
      push_neg at hc
      have h0 : (0 : Int) < (k : Int) := by omega
      have h3 : (cur : Int) < (k : Int) - 1 := hc h0
      rw [ih (cur + 1) (by omega) (by omega)]
      simp only [Option.map_some']
      have h4 : k - (cur + 1) + 1 = k - cur := by omega
      rw [h4]

theorem executeAux_nonpos_allFail {ε α : Type} (m : Int) (hm : m ≤ 0)
    (op : Nat → Except ε α) (err : Nat → ε)
    (hop : ∀ i, op i = Except.error (err i)) :
    ∀ fuel currentAttempt, executeAux m op fuel currentAttempt = none := by
  intro fuel
  induction fuel with
  | zero => intro cur; rfl
  | succ fuel ih =>
    intro cur
    simp only [executeAux, hop cur]
    rw [if_neg (by intro h; omega), ih (cur + 1)]
    rfl

theorem executeAux_firstSuccess {ε α : Type} (m : Int) (hm : m ≤ 0)
    (op : Nat → Except ε α) (n : Nat) (t : α)
    (hfail : ∀ i, i < n → ∃ e, op i = Except.error e)
    (hsucc : op n = Except.ok t) :
    ∀ fuel currentAttempt, currentAttempt ≤ n → n - currentAttempt < fuel →
      executeAux m op fuel currentAttempt =
        some (Except.ok t, n - currentAttempt + 1) := by
  intro fuel
  induction fuel with
  | zero => intro cur h1 h2; omega
  | succ fuel ih =>
    intro cur h1 h2
    rcases Nat.lt_or_ge cur n with hlt | hge
    · obtain ⟨e, he⟩ := hfail cur hlt
      simp only [executeAux, he]
      rw [if_neg (by intro h; omega), ih (cur + 1) (by omega) (by omega)]
      simp only [Option.map_some']
      have h4 : n - (cur + 1) + 1 = n - cur := by omega
      rw [h4]
    · have hcur : cur = n := by omega
      subst hcur
      simp [executeAux, hsucc]

end ExponentialBackoff

/-- C3: if `maxAttempts = k > 0` and the operation fails on every
invocation, `execute()` invokes the operation exactly `k` times and
propagates the `k`-th failure; if `maxAttempts` is `0` or negative,
`execute()` never propagates a failure (no matter how much of the
unbounded loop is run) and keeps retrying until the first successful
invocation, whose value it returns. -/
theorem C3_execute_retry_policy :
    (∀ (ε α : Type) (k : Nat) (op : Nat → Except ε α) (err : Nat → ε),
      0 < k → (∀ i, op i = Except.error (err i)) → ∀ fuel, k ≤ fuel →
      ExponentialBackoff.execute (k : Int) op fuel =
        some (Except.error (err (k - 1)), k))
    ∧ (∀ (ε α : Type) (m : Int) (op : Nat → Except ε α) (err : Nat → ε),
      m ≤ 0 → (∀ i, op i = Except.error (err i)) → ∀ fuel,
      ExponentialBackoff.execute m op fuel = none)
    ∧ (∀ (ε α : Type) (m : Int) (op : Nat → Except ε α) (n : Nat) (t : α),
      m ≤ 0 → (∀ i, i < n → ∃ e, op i = Except.error e) →
      op n = Except.ok t → ∀ fuel, n < fuel →
      ExponentialBackoff.execute m op fuel = some (Except.ok t, n + 1)) := by
  refine ⟨?_, ?_, ?_⟩
  · intro ε α k op err hk hop fuel hfuel
    have h := ExponentialBackoff.executeAux_allFail k op err hop fuel 0
      (by omega) (by omega)
    simpa [ExponentialBackoff.execute] using h
  · intro ε α m op err hm hop fuel
    exact ExponentialBackoff.executeAux_nonpos_allFail m hm op err hop fuel 0
  · intro ε α m op n t hm hfail hsucc fuel hfuel
    have h := ExponentialBackoff.executeAux_firstSuccess m hm op n t hfail hsucc
      fuel 0 (by omega) (by omega)
    simpa [ExponentialBackoff.execute] using h

theorem C3_execute_retry_policy_witness :
    ExponentialBackoff.execute 3 (fun _ => (Except.error "fail" : Except String Nat)) 5
      = some (Except.error "fail", 3)
    ∧ ExponentialBackoff.execute 0 (fun _ => (Except.error "fail" : Except String Nat)) 7
      = none
    ∧ ExponentialBackoff.execute (-2)
        (fun i => if i < 2 then Except.error "fail" else (Except.ok 9 : Except String Nat)) 4
      = some (Except.ok 9, 3) := by
  refine ⟨?_, ?_, ?_⟩
  · have h := C3_execute_retry_policy.1 String Nat 3
      (fun _ => Except.error "fail") (fun _ => "fail") (by omega) (fun _ => rfl) 5 (by omega)
    simpa using h
  · exact C3_execute_retry_policy.2.1 String Nat 0
      (fun _ => Except.error "fail") (fun _ => "fail") le_rfl (fun _ => rfl) 7
  · have h := C3_execute_retry_policy.2.2 String Nat (-2)
      (fun i => if i < 2 then Except.error "fail" else Except.ok 9) 2 9
      (by omega) (fun i hi => ⟨"fail", by simp [hi]⟩) (by norm_num) 4 (by omega)
    simpa using h

/-- C7: with jitter disabled the computed delay for attempt index `i` is
`min (initialDelay * factor ^ i) maxDelay`; with jitter enabled and a
random draw in `[0, 1)`, the computed delay lies in
`[boundedDelay, boundedDelay * 1.25)` whenever that interval is nonempty
(`0 < boundedDelay`). -/
theorem C7_calculateDelay_bounds (o : ExponentialBackoff.BackoffOptions)
    (i : Nat) (rand : ℚ) :
    (o.jitter = false →
      ExponentialBackoff.calculateDelay o i rand =
        min (o.initialDelay * o.factor ^ i) o.maxDelay)
    ∧ (o.jitter = true → 0 ≤ rand → rand < 1 →
      0 < min (o.initialDelay * o.factor ^ i) o.maxDelay →
      min (o.initialDelay * o.factor ^ i) o.maxDelay ≤
        ExponentialBackoff.calculateDelay o i rand
      ∧ ExponentialBackoff.calculateDelay o i rand <
        min (o.initialDelay * o.factor ^ i) o.maxDelay * (5 / 4)) := by
  constructor
  · intro hj
    simp [ExponentialBackoff.calculateDelay, hj]
  · intro hj h0 h1 hb
    simp only [ExponentialBackoff.calculateDelay, hj, Bool.not_true,
      Bool.false_eq_true, if_false]
    constructor
    · nlinarith [mul_nonneg (mul_nonneg hb.le (by norm_num : (0:ℚ) ≤ 1/4)) h0]
    · nlinarith [mul_lt_mul_of_pos_left h1
        (show (0:ℚ) < min (o.initialDelay * o.factor ^ i) o.maxDelay * (1/4) by positivity)]

theorem C7_calculateDelay_bounds_witness :
    (ExponentialBackoff.calculateDelay ⟨100, 30000, 5, 2, false⟩ 1 0 =
      min ((100 : ℚ) * 2 ^ 1) 30000)
    ∧ (min ((100 : ℚ) * 2 ^ 1) 30000 ≤
        ExponentialBackoff.calculateDelay ⟨100, 30000, 5, 2, true⟩ 1 (1 / 2)
      ∧ ExponentialBackoff.calculateDelay ⟨100, 30000, 5, 2, true⟩ 1 (1 / 2) <
        min ((100 : ℚ) * 2 ^ 1) 30000 * (5 / 4)) :=
  ⟨(C7_calculateDelay_bounds ⟨100, 30000, 5, 2, false⟩ 1 0).1 rfl,
   (C7_calculateDelay_bounds ⟨100, 30000, 5, 2, true⟩ 1 (1 / 2)).2 rfl
     (by norm_num) (by norm_num) (by norm_num [min_def])⟩

/-- C8 as stated is false: with `factor = 1/2` (which satisfies
`factor ≥ 0`), jitter off, `initialDelay = 1000 ≥ 0`,
`maxDelay = 30000 ≥ 0` and attempt indices `0 ≤ 1`, the computed delay
strictly decreases from attempt 0 to attempt 1. -/
theorem C8_counterexample :
    (0 : ℚ) ≤ 1000 ∧ (0 : ℚ) ≤ 1 / 2 ∧ (0 : ℚ) ≤ 30000 ∧ (0 : Nat) ≤ 1
    ∧ ¬ (ExponentialBackoff.calculateDelay ⟨1000, 30000, 5, 1 / 2, false⟩ 0 0 ≤
        ExponentialBackoff.calculateDelay ⟨1000, 30000, 5, 1 / 2, false⟩ 1 0) := by
  refine ⟨by norm_num, by norm_num, by norm_num, by norm_num, ?_⟩
  norm_num [ExponentialBackoff.calculateDelay, min_def]

/-- C8 amended: for `initialDelay ≥ 0` and `factor ≥ 1` (rather than
`factor ≥ 0`), the jitter-off delay is monotonically non-decreasing in
the attempt index. -/
theorem C8_delay_monotone (o : ExponentialBackoff.BackoffOptions) (rand : ℚ)
    (h0 : 0 ≤ o.initialDelay) (h1 : 1 ≤ o.factor) (hj : o.jitter = false)
    {i j : Nat} (hij : i ≤ j) :
    ExponentialBackoff.calculateDelay o i rand ≤
      ExponentialBackoff.calculateDelay o j rand := by
  simp only [ExponentialBackoff.calculateDelay, hj, Bool.not_false, if_true]
  exact min_le_min (mul_le_mul_of_nonneg_left (pow_le_pow_right₀ h1 hij) h0) le_rfl

theorem C8_delay_monotone_witness :
    ExponentialBackoff.calculateDelay ⟨1000, 30000, 5, 2, false⟩ 1 0 ≤
      ExponentialBackoff.calculateDelay ⟨1000, 30000, 5, 2, false⟩ 3 0 :=
  C8_delay_monotone ⟨1000, 30000, 5, 2, false⟩ 0 (by norm_num) (by norm_num) rfl
    (by norm_num)

/-- C10: constructing an `ExponentialBackoff` with only `initialDelay`
supplied defaults `maxDelay` to 30000, `maxAttempts` to 5, `factor` to 2
and `jitter` to `true`; in particular `execute()` on such an instance
gives up after exactly 5 attempts when every invocation fails,
propagating the 5th failure. -/
theorem C10_constructor_defaults :
    (∀ d : ℚ, ExponentialBackoff.mkBackoffOptions ⟨d, none, none, none, none⟩ =
      ⟨d, 30000, 5, 2, true⟩)
    ∧ (∀ (ε α : Type) (op : Nat → Except ε α) (err : Nat → ε),
      (∀ i, op i = Except.error (err i)) → ∀ fuel, 5 ≤ fuel →
      ExponentialBackoff.execute
        (ExponentialBackoff.mkBackoffOptions ⟨1, none, none, none, none⟩).maxAttempts
        op fuel = some (Except.error (err 4), 5)) := by
  constructor
  · intro d; rfl
  · intro ε α op err hop fuel hfuel
    have h := ExponentialBackoff.executeAux_allFail 5 op err hop fuel 0
      (by omega) (by omega)
    simpa [ExponentialBackoff.execute, ExponentialBackoff.mkBackoffOptions] using h

namespace GitHubIssueSyncManager

theorem filter_filter_of_imp {β : Type} (l : List β) (p q : β → Bool)
    (h : ∀ x ∈ l, p x = true → q x = true) :
    (l.filter q).filter p = l.filter p := by
  induction l with
  | nil => rfl
  | cons a l ih =>
    have h' : ∀ x ∈ l, p x = true → q x = true :=
      fun x hx => h x (List.mem_cons_of_mem a hx)
    by_cases hp : p a = true
    · have hq : q a = true := h a (List.mem_cons_self a l) hp
      simp [List.filter_cons, hp, hq, ih h']
    · by_cases hq : q a = true
      · simp [List.filter_cons, hp, hq, ih h']
      · simp [List.filter_cons, hp, hq, ih h']

theorem filter_not_filter {β : Type} (l : List β) (p : β → Prop) [DecidablePred p] :
    (l.filter (fun x => ¬ p x)).filter (fun x => p x) = [] := by
  induction l with
  | nil => rfl
  | cons a l ih => by_cases h : p a <;> simp [List.filter_cons, h, ih]

theorem saveComments_foldl_filter (issueId : Int) (scope : String) :
    ∀ (cs : List IssueComment) (t : List CommentRow),
      (cs.map IssueComment.id).Nodup →
      (∀ r ∈ t, (r.issue_id = issueId ∧ r.repository = scope) →
        r.id ∉ cs.map IssueComment.id) →
      (cs.foldl (fun t c => insertOrReplaceComment (commentToRow c issueId scope) t)
          t).filter (fun c => c.issue_id = issueId ∧ c.repository = scope)
        = t.filter (fun c => c.issue_id = issueId ∧ c.repository = scope)
          ++ cs.map (fun c => commentToRow c issueId scope) := by
  intro cs
  induction cs with
  | nil => intro t _ _; simp
  | cons c cs ih =>
    intro t hnodup hdisj
    simp only [List.map_cons, List.nodup_cons, List.mem_map] at hnodup
    simp only [List.foldl_cons, List.map_cons]
    rw [ih (insertOrReplaceComment (commentToRow c issueId scope) t) hnodup.2 ?disj]
    case disj =>
      intro r hr hP
      simp only [insertOrReplaceComment, List.mem_append, List.mem_filter,
        List.mem_singleton] at hr
      rcases hr with ⟨hrt, _⟩ | hrc
      · intro hmem
        exact hdisj r hrt hP (by simp [List.mem_cons]; right; simpa using hmem)
      · subst hrc
        simp only [commentToRow]
        intro hmem
        simp only [List.mem_map] at hmem
        obtain ⟨x, hx, hxid⟩ := hmem
        exact hnodup.1 ⟨x, hx, hxid⟩
    · simp only [insertOrReplaceComment, List.filter_append]
      have hPc : (fun x : CommentRow => decide (x.issue_id = issueId ∧ x.repository = scope))
          (commentToRow c issueId scope) = true := by
        simp [commentToRow]
      rw [filter_filter_of_imp t _ _ ?imp]
      case imp =>
        intro x hx hPx
        simp only [decide_eq_true_eq] at hPx
        have := hdisj x hx hPx
        simp only [List.map_cons, List.mem_cons] at this
        push_neg at this
        simpa using this.1
      simp only [List.filter_cons, hPc, List.filter_nil]
      simp [List.append_assoc]

theorem saveComments_foldl_mem (issueId : Int) (scope : String) :
    ∀ (cs : List IssueComment) (t : List CommentRow) (r : CommentRow),
      r ∈ t → r.id ∉ cs.map IssueComment.id →
      r ∈ cs.foldl
        (fun t c => insertOrReplaceComment (commentToRow c issueId scope) t) t := by
  intro cs
  induction cs with
  | nil => intro t r hr _; simpa using hr
  | cons c cs ih =>
    intro t r hr hid
    simp only [List.map_cons, List.mem_cons] at hid
    push_neg at hid
    simp only [List.foldl_cons]
    exact ih _ r
      (by
        simp only [insertOrReplaceComment, List.mem_append, List.mem_filter]
        left
        exact ⟨hr, by simpa [commentToRow] using hid.1⟩)
      hid.2

theorem saveComments_comment_sync_state (cs : List IssueComment) (issueId : Int)
    (scope : String) (db : DB) :
    (saveComments cs issueId scope db).comment_sync_state = db.comment_sync_state :=
  rfl

theorem getCommentSyncState_set (j : Int) (scope' : String) (db : DB)
    (l : List CommentSyncStateRow) :
    getCommentSyncState j scope' { db with comment_sync_state := l }
      = (match l.filter (fun s => s.issue_id = j ∧ s.repository = scope') with
        | [] => none
        | r :: _ => some r.last_comment_sync) :=
  rfl

theorem getCommentSyncState_saveComments (j : Int) (scope' : String)
    (cs : List IssueComment) (pid : Int) (scope : String) (db : DB) :
    getCommentSyncState j scope' (saveComments cs pid scope db)
      = getCommentSyncState j scope' db :=
  rfl

theorem update_map_filter_ne (l : List CommentSyncStateRow) (j pid : Int)
    (scope' : String) (now : Int) (hne : j ≠ pid) :
    (l.map fun s =>
        if s.issue_id = pid then { s with last_comment_sync := now } else s).filter
      (fun s => s.issue_id = j ∧ s.repository = scope')
    = l.filter (fun s => s.issue_id = j ∧ s.repository = scope') := by
  induction l with
  | nil => rfl
  | cons a l ih =>
    simp only [List.map_cons]
    by_cases ha : a.issue_id = pid
    · rw [if_pos ha]
      rw [List.filter_cons, if_neg (by
        simp only [decide_eq_true_eq, not_and]
        intro h _
        exact hne.symm (ha ▸ h))]
      rw [List.filter_cons, if_neg (by
        simp only [decide_eq_true_eq, not_and]
        intro h _
        exact hne.symm (ha ▸ h))]
      exact ih
    · rw [if_neg ha]
      by_cases hq : a.issue_id = j ∧ a.repository = scope'
      · rw [List.filter_cons, if_pos (decide_eq_true hq),
          List.filter_cons, if_pos (decide_eq_true hq), ih]
      · rw [List.filter_cons, if_neg (by simpa using hq),
          List.filter_cons, if_neg (by simpa using hq)]
        exact ih

theorem update_map_filter_self (pid : Int) (scope : String) (now : Int) :
    ∀ l : List CommentSyncStateRow,
      (∀ s ∈ l, s.issue_id = pid → s.repository = scope) →
      l.any (fun s => s.issue_id = pid) = true →
      ∃ s rest,
        (l.map fun s =>
            if s.issue_id = pid then { s with last_comment_sync := now } else s).filter
          (fun s => s.issue_id = pid ∧ s.repository = scope) = s :: rest
        ∧ s.last_comment_sync = now := by
  intro l
  induction l with
  | nil => intro _ h; simp at h
  | cons a l ih =>
    intro hscope hany
    by_cases ha : a.issue_id = pid
    · have hrepo : a.repository = scope := hscope a (List.mem_cons_self a l) ha
      refine ⟨{ a with last_comment_sync := now },
        (l.map fun s =>
            if s.issue_id = pid then { s with last_comment_sync := now } else s).filter
          (fun s => s.issue_id = pid ∧ s.repository = scope), ?_, rfl⟩
      simp only [List.map_cons]
      rw [if_pos ha, List.filter_cons, if_pos (decide_eq_true ⟨ha, hrepo⟩)]
    · have hscope' : ∀ s ∈ l, s.issue_id = pid → s.repository = scope :=
        fun s hs => hscope s (List.mem_cons_of_mem a hs)
      have hany' : l.any (fun s => s.issue_id = pid) = true := by
        simpa [List.any_cons, ha] using hany
      obtain ⟨s, rest, heq, hlast⟩ := ih hscope' hany'
      refine ⟨s, rest, ?_, hlast⟩
      simp only [List.map_cons]
      rw [if_neg ha, List.filter_cons, if_neg (by
        simp only [decide_eq_true_eq, not_and]
        intro h
        exact absurd h ha)]
      exact heq

theorem getCommentSyncState_update_ne (j pid : Int) (scope' scope : String)
    (now : Int) (db : DB) (hne : j ≠ pid) :
    getCommentSyncState j scope' (updateCommentSyncState pid scope now db)
      = getCommentSyncState j scope' db := by
  rw [updateCommentSyncState]
  split
  · rw [getCommentSyncState_set,
      update_map_filter_ne db.comment_sync_state j pid scope' now hne]
    rfl
  · rw [getCommentSyncState_set, List.filter_append,
      List.filter_cons, if_neg (by
        simp only [decide_eq_true_eq, not_and]
        intro h _
        exact hne.symm h),
      List.filter_nil, List.append_nil]
    rfl

theorem getCommentSyncState_update_self (pid : Int) (scope : String) (now : Int)
    (db : DB)
    (hscope : ∀ s ∈ db.comment_sync_state, s.issue_id = pid → s.repository = scope) :
    getCommentSyncState pid scope (updateCommentSyncState pid scope now db)
      = some now := by
  rw [updateCommentSyncState]
  split
  case isTrue h =>
    obtain ⟨s, rest, heq, hlast⟩ :=
      update_map_filter_self pid scope now db.comment_sync_state hscope h
    rw [getCommentSyncState_set, heq]
    exact congrArg some hlast
  case isFalse h =>
    have hl : db.comment_sync_state.filter
        (fun s => s.issue_id = pid ∧ s.repository = scope) = [] := by
      rw [List.filter_eq_nil_iff]
      intro s hs
      simp only [decide_eq_true_eq, not_and]
      intro hid _
      exact h (by
        rw [List.any_eq_true]
        exact ⟨s, hs, decide_eq_true hid⟩)
    rw [getCommentSyncState_set, List.filter_append, hl, List.nil_append,
      List.filter_cons, if_pos (decide_eq_true ⟨rfl, rfl⟩)]

theorem hscope_update_preserved (pid' pid : Int) (scope : String) (now : Int)
    (db : DB)
    (h : ∀ s ∈ db.comment_sync_state, s.issue_id = pid → s.repository = scope) :
    ∀ s ∈ (updateCommentSyncState pid' scope now db).comment_sync_state,
      s.issue_id = pid → s.repository = scope := by
  simp only [updateCommentSyncState]
  split
  · intro s hs hid
    simp only [List.mem_map] at hs
    obtain ⟨x, hx, hfx⟩ := hs
    by_cases hxp : x.issue_id = pid'
    · rw [if_pos hxp] at hfx
      subst hfx
      exact h x hx hid
    · rw [if_neg hxp] at hfx
      subst hfx
      exact h x hx hid
  · intro s hs hid
    simp only [List.mem_append, List.mem_singleton] at hs
    rcases hs with hs | hs
    · exact h s hs hid
    · subst hs; rfl

theorem syncCommentsLoop_cursor_preserved {ε : Type}
    (f : Int → Option Int → Except ε (List IssueComment)) (scope : String) (now : Int) :
    ∀ (issues : List Issue) (db : DB) (synced : Nat) (j : Int),
      j ∉ issues.map Issue.id →
      getCommentSyncState j scope (syncCommentsLoop f scope now issues db synced).db
        = getCommentSyncState j scope db := by
  intro issues
  induction issues with
  | nil => intro db synced j _; rfl
  | cons a rest ih =>
    intro db synced j hj
    simp only [List.map_cons, List.mem_cons] at hj
    push_neg at hj
    obtain ⟨hja, hjrest⟩ := hj
    simp only [syncCommentsLoop]
    split
    case isTrue hc =>
      split
      case isTrue hn =>
        cases hf : f a.number (getCommentSyncState a.id scope db) with
        | error e => rfl
        | ok comments =>
          dsimp only
          split
          case isTrue hl =>
            dsimp only
            rw [ih _ _ j hjrest]
            rw [getCommentSyncState_update_ne j a.id scope scope now _ hja]
            exact getCommentSyncState_saveComments j scope comments a.id scope db
          case isFalse hl =>
            exact ih _ _ j hjrest
      case isFalse hn =>
        exact ih _ _ j hjrest
    case isFalse hc =>
      exact ih _ _ j hjrest

theorem syncCommentsLoop_childFetched_sub {ε : Type}
    (f : Int → Option Int → Except ε (List IssueComment)) (scope : String) (now : Int) :
    ∀ (issues : List Issue) (db : DB) (synced : Nat) (x : Int),
      x ∈ (syncCommentsLoop f scope now issues db synced).childFetched →
      x ∈ issues.map Issue.id := by
  intro issues
  induction issues with
  | nil => intro db synced x hx; simp [syncCommentsLoop] at hx
  | cons a rest ih =>
    intro db synced x hx
    simp only [List.map_cons, List.mem_cons]
    simp only [syncCommentsLoop] at hx
    revert hx
    split
    case isTrue hc =>
      split
      case isTrue hn =>
        cases hf : f a.number (getCommentSyncState a.id scope db) with
        | error e =>
          intro hx
          simp only [List.mem_singleton] at hx
          exact Or.inl hx
        | ok comments =>
          dsimp only
          split
          case isTrue hl =>
            intro hx
            simp only [List.mem_cons] at hx
            rcases hx with hx | hx
            · exact Or.inl hx
            · exact Or.inr (ih _ _ x hx)
          case isFalse hl =>
            intro hx
            simp only [List.mem_cons] at hx
            rcases hx with hx | hx
            · exact Or.inl hx
            · exact Or.inr (ih _ _ x hx)
      case isFalse hn =>
        intro hx
        exact Or.inr (ih _ _ x hx)
    case isFalse hc =>
      intro hx
      exact Or.inr (ih _ _ x hx)

/-- C1 as stated is false: the per-parent comment loop has no per-parent
error isolation — a comment-fetch failure for the first parent (issue 1)
halts the loop, so its sibling issue 2 (which has comments and is stale)
is neither completed nor has its comments fetched in that cycle, even
though the cycle itself catches the error (`error = some "boom"`). -/
theorem C1_counterexample :
    (syncIssuesAndComments
      (fun _ => Except.ok
        [⟨1, 1, false, "a", "", "open", 0, 10, none, "u", [], 2⟩,
         ⟨2, 2, false, "b", "", "open", 0, 10, none, "u", [], 2⟩])
      (fun n _ => if n = 1 then Except.error "boom"
        else Except.ok [⟨5, 2, "u", "hi", 1, 1⟩])
      "o/r" 100 ⟨[], [], [], []⟩).error = some "boom"
    ∧ (syncIssuesAndComments
      (fun _ => Except.ok
        [⟨1, 1, false, "a", "", "open", 0, 10, none, "u", [], 2⟩,
         ⟨2, 2, false, "b", "", "open", 0, 10, none, "u", [], 2⟩])
      (fun n _ => if n = 1 then Except.error "boom"
        else Except.ok [⟨5, 2, "u", "hi", 1, 1⟩])
      "o/r" 100 ⟨[], [], [], []⟩).completed = []
    ∧ (syncIssuesAndComments
      (fun _ => Except.ok
        [⟨1, 1, false, "a", "", "open", 0, 10, none, "u", [], 2⟩,
         ⟨2, 2, false, "b", "", "open", 0, 10, none, "u", [], 2⟩])
      (fun n _ => if n = 1 then Except.error "boom"
        else Except.ok [⟨5, 2, "u", "hi", 1, 1⟩])
      "o/r" 100 ⟨[], [], [], []⟩).childFetched = [1] := by
  refine ⟨?_, ?_, ?_⟩ <;> decide

/-- C1 amended: a comment-fetch failure while syncing one parent's
children halts the remainder of the cycle's per-parent loop — no later
sibling is processed and no further write happens in that cycle — while
the failure is recorded in the cycle result (the enclosing `try`/`catch`
keeps it from propagating); the next scheduled cycle starts from the
unchanged state. -/
theorem C1_child_failure_halts_loop {ε : Type}
    (f : Int → Option Int → Except ε (List IssueComment)) (scope : String)
    (now : Int) (a : Issue) (rest : List Issue) (db : DB) (synced : Nat) (e : ε)
    (hc : 0 < a.comments)
    (hneeds : needsCommentSync a.updated_at (getCommentSyncState a.id scope db) = true)
    (hfail : f a.number (getCommentSyncState a.id scope db) = Except.error e) :
    syncCommentsLoop f scope now (a :: rest) db synced =
      { db := db, commentsSynced := synced, completed := [],
        childFetched := [a.id], error := some e } := by
  simp only [syncCommentsLoop]
  rw [if_pos hc, if_pos hneeds, hfail]

theorem C1_child_failure_halts_loop_witness :
    syncCommentsLoop
      (fun n _ => if n = 1 then Except.error "boom"
        else Except.ok [⟨5, 2, "u", "hi", 1, 1⟩])
      "o/r" 100
      [⟨1, 1, false, "a", "", "open", 0, 10, none, "u", [], 2⟩,
       ⟨2, 2, false, "b", "", "open", 0, 10, none, "u", [], 2⟩]
      ⟨[], [], [], []⟩ 0
    = { db := ⟨[], [], [], []⟩, commentsSynced := 0, completed := [],
        childFetched := [1], error := some "boom" } :=
  C1_child_failure_halts_loop _ "o/r" 100 _ _ _ 0 "boom" (by decide) (by decide) rfl

/-- C4: in a cycle whose comment loop finishes without error, over
fetched parents with pairwise distinct ids, a parent with a nonzero
remote comment count has its comments fetched iff no child sync cursor
exists for it or its `updated_at` is strictly newer than the stored
cursor timestamp; in particular a parent whose `updated_at` is older than
or equal to its cursor is not re-fetched. -/
theorem C4_child_staleness_iff {ε : Type}
    (f : Int → Option Int → Except ε (List IssueComment)) (scope : String)
    (now : Int) :
    ∀ (issues : List Issue) (db : DB) (synced : Nat),
      (issues.map Issue.id).Nodup →
      (syncCommentsLoop f scope now issues db synced).error = none →
      ∀ i ∈ issues, 0 < i.comments →
      (i.id ∈ (syncCommentsLoop f scope now issues db synced).childFetched ↔
        needsCommentSync i.updated_at (getCommentSyncState i.id scope db) = true) := by
  intro issues
  induction issues with
  | nil => intro db synced _ _ i hi; exact absurd hi (List.not_mem_nil i)
  | cons a rest ih =>
    intro db synced hnodup herr i hi hc
    simp only [List.map_cons, List.nodup_cons] at hnodup
    obtain ⟨hanotin, hrestnodup⟩ := hnodup
    simp only [syncCommentsLoop] at herr ⊢
    rcases List.mem_cons.mp hi with rfl | hirest
    · by_cases hn : needsCommentSync i.updated_at (getCommentSyncState i.id scope db) = true
      · rw [if_pos hc, if_pos hn] at herr ⊢
        cases hf : f i.number (getCommentSyncState i.id scope db) with
        | error e => rw [hf] at herr; simp at herr
        | ok comments =>
          rw [hf] at herr
          dsimp only at herr ⊢
          by_cases hl : 0 < comments.length
          · rw [if_pos hl] at herr ⊢
            dsimp only at herr ⊢
            simp [hn]
          · rw [if_neg hl] at herr ⊢
            dsimp only at herr ⊢
            simp [hn]
      · rw [if_pos hc, if_neg hn] at herr ⊢
        dsimp only at herr ⊢
        have hnot : i.id ∉ (syncCommentsLoop f scope now rest db synced).childFetched :=
          fun hmem =>
            hanotin (syncCommentsLoop_childFetched_sub f scope now rest db synced i.id hmem)
        simp [hnot, hn]
    · have hidne : i.id ≠ a.id :=
        fun h => hanotin (h ▸ List.mem_map_of_mem Issue.id hirest)
      by_cases hca : 0 < a.comments
      · by_cases hna : needsCommentSync a.updated_at (getCommentSyncState a.id scope db) = true
        · rw [if_pos hca, if_pos hna] at herr ⊢
          cases hf : f a.number (getCommentSyncState a.id scope db) with
          | error e => rw [hf] at herr; simp at herr
          | ok comments =>
            rw [hf] at herr
            dsimp only at herr ⊢
            by_cases hl : 0 < comments.length
            · rw [if_pos hl] at herr ⊢
              dsimp only at herr ⊢
              have hcur : getCommentSyncState i.id scope
                  (updateCommentSyncState a.id scope now (saveComments comments a.id scope db))
                  = getCommentSyncState i.id scope db := by
                rw [getCommentSyncState_update_ne i.id a.id scope scope now _ hidne,
                  getCommentSyncState_saveComments]
              have hiff := ih
                (updateCommentSyncState a.id scope now (saveComments comments a.id scope db))
                (synced + comments.length) hrestnodup herr i hirest hc
              rw [hcur] at hiff
              constructor
              · intro hmem
                rcases List.mem_cons.mp hmem with h | h
                · exact absurd h hidne
                · exact hiff.mp h
              · intro hneed
                exact List.mem_cons_of_mem _ (hiff.mpr hneed)
            · rw [if_neg hl] at herr ⊢
              dsimp only at herr ⊢
              have hiff := ih db synced hrestnodup herr i hirest hc
              constructor
              · intro hmem
                rcases List.mem_cons.mp hmem with h | h
                · exact absurd h hidne
                · exact hiff.mp h
              · intro hneed
                exact List.mem_cons_of_mem _ (hiff.mpr hneed)
        · rw [if_pos hca, if_neg hna] at herr ⊢
          dsimp only at herr ⊢
          exact ih db synced hrestnodup herr i hirest hc
      · rw [if_neg hca] at herr ⊢
        dsimp only at herr ⊢
        exact ih db synced hrestnodup herr i hirest hc

theorem C4_child_staleness_iff_witness :
    (1 : Int) ∈ (syncCommentsLoop (fun _ _ => (Except.ok [] : Except String (List IssueComment)))
        "o/r" 100 [⟨1, 1, false, "t", "", "open", 0, 10, none, "u", [], 2⟩]
        ⟨[], [], [], [⟨1, "o/r", 50⟩]⟩ 0).childFetched ↔
      needsCommentSync 10
        (getCommentSyncState 1 "o/r" ⟨[], [], [], [⟨1, "o/r", 50⟩]⟩) = true :=
  C4_child_staleness_iff (fun _ _ => (Except.ok [] : Except String (List IssueComment))) "o/r" 100
    [⟨1, 1, false, "t", "", "open", 0, 10, none, "u", [], 2⟩]
    ⟨[], [], [], [⟨1, "o/r", 50⟩]⟩ 0 (by decide) (by decide)
    ⟨1, 1, false, "t", "", "open", 0, 10, none, "u", [], 2⟩ (by decide) (by decide)

/-- C6 as stated is false: the child sync cursor is advanced only when
the comment fetch returns at least one record.  A stale parent (issue 1,
3 remote comments, no cursor) whose comment fetch returns an empty
sequence is processed without error, yet ends the cycle with no child
cursor row. -/
theorem C6_counterexample :
    (syncIssuesAndComments
      (fun _ => Except.ok [⟨1, 1, false, "t", "", "open", 0, 10, none, "u", [], 3⟩])
      (fun _ _ => (Except.ok [] : Except String (List IssueComment)))
      "o/r" 100 ⟨[], [], [], []⟩).error = none
    ∧ (syncIssuesAndComments
      (fun _ => Except.ok [⟨1, 1, false, "t", "", "open", 0, 10, none, "u", [], 3⟩])
      (fun _ _ => (Except.ok [] : Except String (List IssueComment)))
      "o/r" 100 ⟨[], [], [], []⟩).childFetched = [1]
    ∧ getCommentSyncState 1 "o/r" (syncIssuesAndComments
      (fun _ => Except.ok [⟨1, 1, false, "t", "", "open", 0, 10, none, "u", [], 3⟩])
      (fun _ _ => (Except.ok [] : Except String (List IssueComment)))
      "o/r" 100 ⟨[], [], [], []⟩).db = none := by
  refine ⟨?_, ?_, ?_⟩ <;> decide

/-- C6 amended: in an error-free comment loop over parents with distinct
ids, a stale parent (with a well-scoped cursor table) whose comment fetch
returns a nonempty sequence ends the cycle with its child cursor set to
`now`; when the fetch returns an empty sequence the cursor is left
exactly as it was (in particular absent if it was absent). -/
theorem C6_cursor_advance_on_nonempty {ε : Type}
    (f : Int → Option Int → Except ε (List IssueComment)) (scope : String)
    (now : Int) :
    ∀ (issues : List Issue) (db : DB) (synced : Nat) (i : Issue)
      (cs : List IssueComment),
      (issues.map Issue.id).Nodup →
      (syncCommentsLoop f scope now issues db synced).error = none →
      i ∈ issues → 0 < i.comments →
      (∀ s ∈ db.comment_sync_state, s.issue_id = i.id → s.repository = scope) →
      needsCommentSync i.updated_at (getCommentSyncState i.id scope db) = true →
      f i.number (getCommentSyncState i.id scope db) = Except.ok cs →
      ((0 < cs.length →
        getCommentSyncState i.id scope
          (syncCommentsLoop f scope now issues db synced).db = some now)
      ∧ (cs.length = 0 →
        getCommentSyncState i.id scope
          (syncCommentsLoop f scope now issues db synced).db
          = getCommentSyncState i.id scope db)) := by
  intro issues
  induction issues with
  | nil => intro db synced i cs _ _ hi; exact absurd hi (List.not_mem_nil i)
  | cons a rest ih =>
    intro db synced i cs hnodup herr hi hc hscope hneeds hfetch
    simp only [List.map_cons, List.nodup_cons] at hnodup
    obtain ⟨hanotin, hrestnodup⟩ := hnodup
    simp only [syncCommentsLoop] at herr ⊢
    rcases List.mem_cons.mp hi with rfl | hirest
    · rw [if_pos hc, if_pos hneeds] at herr ⊢
      rw [hfetch] at herr ⊢
      dsimp only at herr ⊢
      constructor
      · intro hlen
        rw [if_pos hlen] at herr ⊢
        dsimp only at herr ⊢
        rw [syncCommentsLoop_cursor_preserved f scope now rest _ _ i.id hanotin]
        exact getCommentSyncState_update_self i.id scope now
          (saveComments cs i.id scope db) (fun s hs hid => hscope s hs hid)
      · intro hlen0
        rw [if_neg (by omega)] at herr ⊢
        dsimp only at herr ⊢
        exact syncCommentsLoop_cursor_preserved f scope now rest db synced i.id hanotin
    · have hidne : i.id ≠ a.id :=
        fun h => hanotin (h ▸ List.mem_map_of_mem Issue.id hirest)
      by_cases hca : 0 < a.comments
      · by_cases hna : needsCommentSync a.updated_at (getCommentSyncState a.id scope db) = true
        · rw [if_pos hca, if_pos hna] at herr ⊢
          cases hf : f a.number (getCommentSyncState a.id scope db) with
          | error e => rw [hf] at herr; simp at herr
          | ok comments =>
            rw [hf] at herr
            dsimp only at herr ⊢
            by_cases hl : 0 < comments.length
            · rw [if_pos hl] at herr ⊢
              dsimp only at herr ⊢
              have hcur : getCommentSyncState i.id scope
                  (updateCommentSyncState a.id scope now (saveComments comments a.id scope db))
                  = getCommentSyncState i.id scope db := by
                rw [getCommentSyncState_update_ne i.id a.id scope scope now _ hidne,
                  getCommentSyncState_saveComments]
              have hscope' : ∀ s ∈ (updateCommentSyncState a.id scope now
                  (saveComments comments a.id scope db)).comment_sync_state,
                  s.issue_id = i.id → s.repository = scope :=
                hscope_update_preserved a.id i.id scope now
                  (saveComments comments a.id scope db) (fun s hs hid => hscope s hs hid)
              have h := ih
                (updateCommentSyncState a.id scope now (saveComments comments a.id scope db))
                (synced + comments.length) i cs hrestnodup herr hirest hc hscope'
                (by rw [hcur]; exact hneeds) (by rw [hcur]; exact hfetch)
              exact ⟨h.1, fun hlen0 => by rw [h.2 hlen0, hcur]⟩
            · rw [if_neg hl] at herr ⊢
              dsimp only at herr ⊢
              exact ih db synced i cs hrestnodup herr hirest hc hscope hneeds hfetch
        · rw [if_pos hca, if_neg hna] at herr ⊢
          dsimp only at herr ⊢
          exact ih db synced i cs hrestnodup herr hirest hc hscope hneeds hfetch
      · rw [if_neg hca] at herr ⊢
        dsimp only at herr ⊢
        exact ih db synced i cs hrestnodup herr hirest hc hscope hneeds hfetch

theorem C6_cursor_advance_on_nonempty_witness :
    ((0 < ([⟨7, 1, "u", "c", 6, 6⟩] : List IssueComment).length →
      getCommentSyncState 1 "o/r"
        (syncCommentsLoop (fun _ _ => (Except.ok [⟨7, 1, "u", "c", 6, 6⟩] : Except String (List IssueComment))) "o/r" 100
          [⟨1, 1, false, "t", "", "open", 0, 10, none, "u", [], 2⟩]
          ⟨[], [], [], [⟨1, "o/r", 5⟩]⟩ 0).db = some 100)
    ∧ (([⟨7, 1, "u", "c", 6, 6⟩] : List IssueComment).length = 0 →
      getCommentSyncState 1 "o/r"
        (syncCommentsLoop (fun _ _ => (Except.ok [⟨7, 1, "u", "c", 6, 6⟩] : Except String (List IssueComment))) "o/r" 100
          [⟨1, 1, false, "t", "", "open", 0, 10, none, "u", [], 2⟩]
          ⟨[], [], [], [⟨1, "o/r", 5⟩]⟩ 0).db
        = getCommentSyncState 1 "o/r" ⟨[], [], [], [⟨1, "o/r", 5⟩]⟩)) :=
  C6_cursor_advance_on_nonempty (fun _ _ => (Except.ok [⟨7, 1, "u", "c", 6, 6⟩] : Except String (List IssueComment))) "o/r" 100
    [⟨1, 1, false, "t", "", "open", 0, 10, none, "u", [], 2⟩]
    ⟨[], [], [], [⟨1, "o/r", 5⟩]⟩ 0
    ⟨1, 1, false, "t", "", "open", 0, 10, none, "u", [], 2⟩
    [⟨7, 1, "u", "c", 6, 6⟩] (by decide) (by decide) (by decide) (by decide)
    (by decide) (by decide) rfl

end GitHubIssueSyncManager

/-- C2 exposes a code bug: `cleanup` deletes the scope's `github_issues`
rows before the `comment_sync_state` delete runs its subquery
`SELECT id FROM github_issues WHERE repository = ?`, so that subquery
matches nothing and the scope's `comment_sync_state` rows survive the
cleanup, contradicting the claim (and the code's own comment "Remove all
data for this repository").  Concretely: one issue (id 1), one comment,
one repository cursor and one child cursor, all for scope `o/r` — after
`cleanup` the first three tables are empty but the child cursor remains. -/
theorem C2_cleanup_leaves_child_cursor :
    (GitHubIssueSyncManager.cleanup "o/r"
      { github_issues := [⟨1, 1, false, "t", "", "open", 0, 10, none, "u", [], 1, "o/r"⟩],
        github_comments := [⟨5, 1, "c", "u", 0, 0, "o/r"⟩],
        issue_sync_state := [⟨"o/r", 50⟩],
        comment_sync_state := [⟨1, "o/r", 50⟩] }).github_issues = []
    ∧ (GitHubIssueSyncManager.cleanup "o/r"
      { github_issues := [⟨1, 1, false, "t", "", "open", 0, 10, none, "u", [], 1, "o/r"⟩],
        github_comments := [⟨5, 1, "c", "u", 0, 0, "o/r"⟩],
        issue_sync_state := [⟨"o/r", 50⟩],
        comment_sync_state := [⟨1, "o/r", 50⟩] }).github_comments = []
    ∧ (GitHubIssueSyncManager.cleanup "o/r"
      { github_issues := [⟨1, 1, false, "t", "", "open", 0, 10, none, "u", [], 1, "o/r"⟩],
        github_comments := [⟨5, 1, "c", "u", 0, 0, "o/r"⟩],
        issue_sync_state := [⟨"o/r", 50⟩],
        comment_sync_state := [⟨1, "o/r", 50⟩] }).issue_sync_state = []
    ∧ (GitHubIssueSyncManager.cleanup "o/r"
      { github_issues := [⟨1, 1, false, "t", "", "open", 0, 10, none, "u", [], 1, "o/r"⟩],
        github_comments := [⟨5, 1, "c", "u", 0, 0, "o/r"⟩],
        issue_sync_state := [⟨"o/r", 50⟩],
        comment_sync_state := [⟨1, "o/r", 50⟩] }).comment_sync_state
      = [⟨1, "o/r", 50⟩] := by
  refine ⟨?_, ?_, ?_, ?_⟩ <;> decide

/-- C5: `saveComments(records, parentId)` — when no child sync cursor
exists for the parent, the stored comments for that parent and scope
afterwards are exactly the batch (for a batch with distinct ids); when a
cursor exists, only insert-or-replace by id happens, so every pre-existing
comment row whose id is not in the batch survives unchanged. -/
theorem C5_saveComments_replace_or_merge (cs : List GitHubIssueSyncManager.IssueComment)
    (issueId : Int) (scope : String) (db : GitHubIssueSyncManager.DB) :
    (GitHubIssueSyncManager.getCommentSyncState issueId scope db = none →
      (cs.map GitHubIssueSyncManager.IssueComment.id).Nodup →
      (GitHubIssueSyncManager.saveComments cs issueId scope db).github_comments.filter
          (fun c => c.issue_id = issueId ∧ c.repository = scope)
        = cs.map (fun c => GitHubIssueSyncManager.commentToRow c issueId scope))
    ∧ (∀ t0, GitHubIssueSyncManager.getCommentSyncState issueId scope db = some t0 →
      ∀ r ∈ db.github_comments, r.id ∉ cs.map GitHubIssueSyncManager.IssueComment.id →
      r ∈ (GitHubIssueSyncManager.saveComments cs issueId scope db).github_comments) := by
  constructor
  · intro hnone hnodup
    simp only [GitHubIssueSyncManager.saveComments, hnone, Option.isNone_none, if_true]
    rw [GitHubIssueSyncManager.saveComments_foldl_filter issueId scope cs _ hnodup ?disj]
    case disj =>
      intro r hr hP
      simp only [List.mem_filter, decide_not, Bool.not_eq_eq_eq_not, Bool.not_true,
        decide_eq_false_iff_not] at hr
      exact absurd hP hr.2
    rw [GitHubIssueSyncManager.filter_not_filter]
    simp
  · intro t0 hsome r hr hid
    simp only [GitHubIssueSyncManager.saveComments, hsome, Option.isNone_some,
      Bool.false_eq_true, if_false]
    exact GitHubIssueSyncManager.saveComments_foldl_mem issueId scope cs
      db.github_comments r hr hid

theorem C5_saveComments_replace_or_merge_witness :
    ((GitHubIssueSyncManager.saveComments [⟨5, 1, "u", "new", 1, 1⟩] 1 "o/r"
        { github_issues := [],
          github_comments := [⟨9, 1, "old", "u", 0, 0, "o/r"⟩],
          issue_sync_state := [],
          comment_sync_state := [] }).github_comments.filter
        (fun c => c.issue_id = 1 ∧ c.repository = "o/r")
      = [⟨5, 1, "u", "new", 1, 1⟩].map
          (fun c => GitHubIssueSyncManager.commentToRow c 1 "o/r"))
    ∧ (⟨9, 1, "old", "u", 0, 0, "o/r"⟩ : GitHubIssueSyncManager.CommentRow) ∈
        (GitHubIssueSyncManager.saveComments [⟨5, 1, "u", "new", 1, 1⟩] 1 "o/r"
          { github_issues := [],
            github_comments := [⟨9, 1, "old", "u", 0, 0, "o/r"⟩],
            issue_sync_state := [],
            comment_sync_state := [⟨1, "o/r", 50⟩] }).github_comments :=
  ⟨(C5_saveComments_replace_or_merge [⟨5, 1, "u", "new", 1, 1⟩] 1 "o/r"
      { github_issues := [],
        github_comments := [⟨9, 1, "old", "u", 0, 0, "o/r"⟩],
        issue_sync_state := [],
        comment_sync_state := [] }).1 (by decide) (by decide),
   (C5_saveComments_replace_or_merge [⟨5, 1, "u", "new", 1, 1⟩] 1 "o/r"
      { github_issues := [],
        github_comments := [⟨9, 1, "old", "u", 0, 0, "o/r"⟩],
        issue_sync_state := [],
        comment_sync_state := [⟨1, "o/r", 50⟩] }).2 50 (by decide)
      ⟨9, 1, "old", "u", 0, 0, "o/r"⟩ (by decide) (by decide)⟩

theorem C10_constructor_defaults_witness :
    ExponentialBackoff.mkBackoffOptions ⟨7, none, none, none, none⟩ =
      ⟨7, 30000, 5, 2, true⟩
    ∧ ExponentialBackoff.execute
        (ExponentialBackoff.mkBackoffOptions ⟨1, none, none, none, none⟩).maxAttempts
        (fun _ => (Except.error "fail" : Except String Nat)) 6
      = some (Except.error "fail", 5) :=
  ⟨C10_constructor_defaults.1 7,
   C10_constructor_defaults.2 String Nat (fun _ => Except.error "fail")
     (fun _ => "fail") (fun _ => rfl) 6 (by omega)⟩

namespace GitHubIssueSyncManager

theorem fetchPagesLoop_spec {α : Type} (remote : GithubParams → List α)
    (mk : Nat → GithubParams) :
    ∀ (n fuel start : Nat), n < fuel →
      remote (mk (start + n)) = [] →
      (∀ m < n, remote (mk (start + m)) ≠ []) →
      fetchPagesLoop remote mk fuel start
        = some (((List.range n).map fun i => remote (mk (start + i))).flatten) := by
  intro n
  induction n with
  | zero =>
    intro fuel start hfuel hempty _
    cases fuel with
    | zero => omega
    | succ fuel =>
      simp only [Nat.add_zero] at hempty
      simp [fetchPagesLoop, hempty]
  | succ n ih =>
    intro fuel start hfuel hempty hne
    cases fuel with
    | zero => omega
    | succ fuel =>
      simp only [fetchPagesLoop]
      have h0 : remote (mk start) ≠ [] := by
        have := hne 0 (Nat.succ_pos n)
        simpa using this
      rw [if_neg (by simpa [List.length_eq_zero] using h0)]
      rw [ih fuel (start + 1) (by omega)
        (by
          have harith : start + 1 + n = start + (n + 1) := by omega
          rw [harith]
          exact hempty)
        (fun m hm => by
          have harith : start + 1 + m = start + (m + 1) := by omega
          rw [harith]
          exact hne (m + 1) (by omega))]
      simp only [Option.map_some']
      congr 1
      rw [List.range_succ_eq_map, List.map_cons, List.flatten_cons, List.map_map]
      simp only [Nat.add_zero]
      congr 1
      congr 1
      apply List.map_congr_left
      intro i _
      have harith : start + 1 + i = start + (i + 1) := by omega
      simp only [Function.comp_apply, harith]

/-- C9 as stated is false for child fetches: `fetchCommentsForIssue`
builds its page parameters with only `per_page`, `page` and (optionally)
`since` — it sends no `sort` or `direction` keys, so child pages are not
requested "sorted by most-recently-updated descending". -/
theorem C9_counterexample :
    (commentPageParams none 1).sort = none
    ∧ (commentPageParams none 1).direction = none
    ∧ ¬ ((commentPageParams none 1).sort = some "updated"
      ∧ (commentPageParams none 1).direction = some "desc") := by
  refine ⟨rfl, rfl, by decide⟩

/-- C9 amended: both paginated fetchers start at page 1 with page size
100, include `since` exactly when a cursor is passed, stop at the first
empty page and return the concatenation of the pages fetched before it,
in order; the issue fetcher additionally sends `state=all`,
`sort=updated`, `direction=desc`, while the comment fetcher sends no
`state`, `sort` or `direction` keys. -/
theorem C9_pagination :
    (∀ (since : Option Int) (page : Nat),
      issuePageParams since page =
        ⟨some "all", 100, page, some "updated", some "desc", since⟩)
    ∧ (∀ (since : Option Int) (page : Nat),
      commentPageParams since page = ⟨none, 100, page, none, none, since⟩)
    ∧ (∀ (remote : GithubParams → List Issue) (since : Option Int) (fuel n : Nat),
      n < fuel → remote (issuePageParams since (1 + n)) = [] →
      (∀ m < n, remote (issuePageParams since (1 + m)) ≠ []) →
      fetchAllIssues remote since fuel
        = some (((List.range n).map fun i => remote (issuePageParams since (1 + i))).flatten))
    ∧ (∀ (remote : GithubParams → List IssueComment) (since : Option Int) (fuel n : Nat),
      n < fuel → remote (commentPageParams since (1 + n)) = [] →
      (∀ m < n, remote (commentPageParams since (1 + m)) ≠ []) →
      fetchCommentsForIssue remote since fuel
        = some (((List.range n).map fun i =>
            remote (commentPageParams since (1 + i))).flatten)) := by
  refine ⟨fun _ _ => rfl, fun _ _ => rfl, ?_, ?_⟩
  · intro remote since fuel n hfuel hempty hne
    exact fetchPagesLoop_spec remote (issuePageParams since) n fuel 1 hfuel hempty hne
  · intro remote since fuel n hfuel hempty hne
    exact fetchPagesLoop_spec remote (commentPageParams since) n fuel 1 hfuel hempty hne

theorem C9_pagination_witness :
    fetchAllIssues
      (fun p => if p.page = 1
        then [⟨1, 1, false, "t", "", "open", 0, 10, none, "u", [], 0⟩] else [])
      none 2
    = some (((List.range 1).map fun i =>
        (fun p : GithubParams => if p.page = 1
          then [(⟨1, 1, false, "t", "", "open", 0, 10, none, "u", [], 0⟩ : Issue)] else [])
        (issuePageParams none (1 + i))).flatten)
    ∧ fetchCommentsForIssue
      (fun p => if p.page = 1 then [⟨5, 1, "u", "b", 1, 1⟩] else [])
      (some 3) 2
    = some (((List.range 1).map fun i =>
        (fun p : GithubParams => if p.page = 1
          then [(⟨5, 1, "u", "b", 1, 1⟩ : IssueComment)] else [])
        (commentPageParams (some 3) (1 + i))).flatten) :=
  ⟨C9_pagination.2.2.1
      (fun p => if p.page = 1
        then [⟨1, 1, false, "t", "", "open", 0, 10, none, "u", [], 0⟩] else [])
      none 2 1 (by decide) (by decide) (by decide),
   C9_pagination.2.2.2
      (fun p => if p.page = 1 then [⟨5, 1, "u", "b", 1, 1⟩] else [])
      (some 3) 2 1 (by decide) (by decide) (by decide)⟩

end GitHubIssueSyncManager
